import Mathlib

/-!
Verification of the EPG merge script (`scripts/merge_epg.py`).

The script merges several XMLTV documents into one: channels are
deduplicated by display-name, programmes are remapped to the merged
channel ids, and the output interleaves each channel's programmes
right after the channel element.

Shallow embedding conventions:
* an XML document is its root attribute list plus the list of its
  `channel` / `programme` child elements, in document order;
* a `channel` element is its `id` attribute (`none` = attribute absent)
  plus the text of each `display-name` child (`none` = absent text);
* a `programme` element is its `channel` attribute plus an opaque
  payload identifying the rest of its content;
* Python dicts are association lists with in-place overwrite;
  `name_map`, which maps display-names to mutable channel objects,
  is modelled as a map to indices into the accumulator's channel list
  (channel objects are only ever appended, so indices are stable and
  aliasing through the map is captured exactly);
* the set returned by `get_all_names` is modelled as a duplicate-free
  list in first-insertion order (the Python iteration order of a
  `set` is arbitrary; a deterministic order is fixed here);
* console warnings are collected in a list of `Warning` events;
* the `AttributeError` raised when the base document is missing and
  `base_root` (= `None`) is dereferenced is modelled as the `crash`
  outcome.

`str.strip()` / `int()` are modelled for ASCII whitespace and plain
optionally-signed decimal strings (Python's digit-grouping underscores
and non-ASCII whitespace are not modelled; no claim depends on them).
-/

namespace MergeEpg

/-- A `channel` element: its `id` attribute and the text of each
`display-name` child. -/
structure Channel where
  id : Option String
  displayNames : List (Option String)
  deriving Repr, DecidableEq, Inhabited

/-- A `programme` element: its `channel` attribute and an opaque payload
standing for all its other attributes and children. -/
structure Programme where
  channel : Option String
  payload : Nat
  deriving Repr, DecidableEq, Inhabited

/-- A direct child of the `<tv>` root. -/
inductive Item where
  | chan (c : Channel)
  | prog (p : Programme)
  deriving Repr, DecidableEq, Inhabited

/-- An XMLTV document: root attributes and root children in order. -/
structure Doc where
  attrs : List (String × String)
  items : List Item
  deriving Repr, DecidableEq, Inhabited

/-- Console messages printed by the script. -/
inductive Warning where
  | parseFail
  | unmatchedChannel (old : Option String)
  deriving Repr, DecidableEq

/-- Result of one `merge_files` call: normal return with the written
document (if any), or an uncaught exception. -/
inductive RunOutcome where
  | ok (written : Option Doc) (warnings : List Warning)
  | crash (warnings : List Warning)
  deriving Repr, DecidableEq

/-- Dict lookup (`d.get(k)`). -/
def getAssoc {α β : Type} [DecidableEq α] : List (α × β) → α → Option β
  | [], _ => none
  | (k', v') :: rest, k => if k' = k then some v' else getAssoc rest k

/-- Dict assignment (`d[k] = v`): overwrite in place or append. -/
def setAssoc {α β : Type} [DecidableEq α] : List (α × β) → α → β → List (α × β)
  | [], k, v => [(k, v)]
  | (k', v') :: rest, k, v =>
    if k' = k then (k, v) :: rest else (k', v') :: setAssoc rest k v

/-- ASCII whitespace, as stripped by Python's `str.strip()`. -/
def isWs (c : Char) : Bool :=
  c = ' ' || c = '\t' || c = '\n' || c = '\r' || c = '\x0b' || c = '\x0c'

/-- `str.strip()` on the underlying character list. -/
def stripList (l : List Char) : List Char :=
  ((l.dropWhile isWs).reverse.dropWhile isWs).reverse

/-- `str.strip()`. -/
def strip (s : String) : String := ⟨stripList s.toList⟩

/-- Keep the first occurrence of each element (deterministic stand-in for
Python's `set` construction). -/
def dedupFirst : List String → List String
  | [] => []
  | x :: xs => x :: (dedupFirst xs).filter (fun y => y ≠ x)

/-- The name set of a list of `display-name` texts:
`{dn.text.strip() for dn in ch.findall("display-name") if dn.text}`.
A child whose text is absent (`none`) or empty (`""`) is excluded;
the kept texts are stripped. -/
def namesOfTexts (texts : List (Option String)) : List String :=
  dedupFirst (texts.filterMap fun t =>
    match t with
    | none => none
    | some s => if s = "" then none else some (strip s))

/-- `get_all_names(ch)`. -/
def getAllNames (ch : Channel) : List String :=
  namesOfTexts ch.displayNames

/-- `int(s)` on a string: optional surrounding whitespace, optional sign,
decimal digits; `none` when the string is not a valid integer literal. -/
def digitsToNat : List Char → Option Nat
  | [] => none
  | cs =>
    if cs.all Char.isDigit then
      some (cs.foldl (fun n c => 10 * n + (c.toNat - 48)) 0)
    else none

/-- `int(s)` (`ValueError` is `none`). -/
def pyInt (s : String) : Option Int :=
  match (strip s).toList with
  | '-' :: rest => (digitsToNat rest).map (fun n => -(n : Int))
  | '+' :: rest => (digitsToNat rest).map (fun n => (n : Int))
  | cs => (digitsToNat cs).map (fun n => (n : Int))

/-- The channel elements of a document, in document order
(`root.findall("channel")`). -/
def chansOf (d : Doc) : List Channel :=
  d.items.filterMap fun it =>
    match it with
    | Item.chan c => some c
    | Item.prog _ => none

/-- The programme elements of a document, in document order
(`root.findall("programme")`). -/
def progsOfDoc (d : Doc) : List Programme :=
  d.items.filterMap fun it =>
    match it with
    | Item.prog p => some p
    | Item.chan _ => none

/-- The mutable state of one `merge_files` call once the base document is
loaded: the base root's attributes, its channel children, and the dicts
`name_map` (display-name to channel, by index), `id_map`, `max_id`,
`programmes_map`. -/
structure MState where
  attrs : List (String × String)
  chans : List Channel
  nameMap : List (String × Nat)
  idMap : List (Option String × Option String)
  maxId : Int
  progMap : List (String × List Programme)
  deriving Repr, DecidableEq, Inhabited

/-- `for n in ch_names: if n in name_map: target = name_map[n]; break`. -/
def findTarget (nm : List (String × Nat)) : List String → Option Nat
  | [] => none
  | n :: rest =>
    match getAssoc nm n with
    | some t => some t
    | none => findTarget nm rest

/-- Merging one channel of a non-base document (the body of the
`for ch in root.findall("channel")` loop). -/
def mergeChannel (acc : MState) (ch : Channel) : MState :=
  let chNames := getAllNames ch
  if chNames.isEmpty then acc
  else
    let oldId := ch.id
    match findTarget acc.nameMap chNames with
    | some t =>
      let target := acc.chans.getD t default
      let existing := getAllNames target
      let fresh := chNames.filter (fun n => ¬ (n ∈ existing))
      let target' := { target with displayNames := target.displayNames ++ fresh.map Option.some }
      { acc with
          chans := acc.chans.set t target'
          nameMap := fresh.foldl (fun m n => setAssoc m n t) acc.nameMap
          idMap := setAssoc acc.idMap oldId target.id }
    | none =>
      let mx := acc.maxId + 1
      let newId := toString mx
      let ch' := { ch with id := some newId }
      { acc with
          chans := acc.chans ++ [ch']
          nameMap := chNames.foldl (fun m n => setAssoc m n acc.chans.length) acc.nameMap
          maxId := mx
          progMap := setAssoc acc.progMap newId []
          idMap := setAssoc acc.idMap oldId (some newId) }

/-- Remapping one programme of a non-base document (the body of the
`for p in root.findall("programme")` loop). -/
def mergeProgramme (acc : MState) (p : Programme) : MState × Option Warning :=
  match getAssoc acc.idMap p.channel with
  | none => (acc, some (Warning.unmatchedChannel p.channel))
  | some newIdO =>
    match newIdO with
    | none => (acc, some (Warning.unmatchedChannel p.channel))
    | some newId =>
      if newId = "" then (acc, some (Warning.unmatchedChannel p.channel))
      else
        let p' := { p with channel := some newId }
        let ps := (getAssoc acc.progMap newId).getD []
        ({ acc with progMap := setAssoc acc.progMap newId (ps ++ [p']) }, none)

/-- One iteration of the programme loop, threading the warning list. -/
def progStep (pr : MState × List Warning) (p : Programme) : MState × List Warning :=
  match mergeProgramme pr.1 p with
  | (s, some w) => (s, pr.2 ++ [w])
  | (s, none) => (s, pr.2)

/-- The programme loop of one non-base document, collecting warnings. -/
def progPhase (acc : MState) (ps : List Programme) : MState × List Warning :=
  ps.foldl progStep (acc, [])

/-- Processing one parsed non-base document: channels first, then
programmes.  Returns the new state and the warnings this document emitted. -/
def docStep (acc : MState) (d : Doc) : MState × List Warning :=
  progPhase ((chansOf d).foldl mergeChannel acc) (progsOfDoc d)

/-- The remaining loop iterations once the base document is loaded.
With a base present no statement of the loop can raise, so this is total. -/
def runRest : MState → List Warning → List (Option Doc) → MState × List Warning
  | acc, ws, [] => (acc, ws)
  | acc, ws, none :: rest => runRest acc (ws ++ [Warning.parseFail]) rest
  | acc, ws, some d :: rest =>
    let pr := docStep acc d
    runRest pr.1 (ws ++ pr.2) rest

/-- The base-document channel loop: index display-names, track the
maximum numeric id, and initialise `programmes_map`.  Channels whose id
is absent or `""` are skipped.  `i` is the index of the head of `l` in
the accumulator's channel list. -/
def baseChanLoop : MState → Nat → List Channel → MState
  | acc, _, [] => acc
  | acc, i, ch :: rest =>
    let acc' :=
      match ch.id with
      | none => acc
      | some cid =>
        if cid = "" then acc
        else
          { acc with
              nameMap := (getAllNames ch).foldl (fun m n => setAssoc m n i) acc.nameMap
              maxId :=
                match pyInt cid with
                | some v => max acc.maxId v
                | none => acc.maxId
              progMap := setAssoc acc.progMap cid [] }
    baseChanLoop acc' (i + 1) rest

/-- Collecting one base-document programme: appended to `programmes_map`
when its `channel` attribute is a known key, silently ignored otherwise. -/
def baseProgStep (acc : MState) (p : Programme) : MState :=
  match p.channel with
  | none => acc
  | some k =>
    match getAssoc acc.progMap k with
    | none => acc
    | some ps => { acc with progMap := setAssoc acc.progMap k (ps ++ [p]) }

/-- Ingesting the base document: overwrite the generator attributes and
the `date` attribute (the formatted current time is a parameter), run the
channel loop, then collect and remove all programmes. -/
def baseState (d : Doc) (dateStr : String) : MState :=
  let attrs :=
    setAssoc
      (setAssoc (setAssoc d.attrs "generator-info-name" "tvsilo.vip")
        "generator-info-url" "https://github.com/g12777/TV")
      "date" dateStr
  let chans := chansOf d
  let st0 : MState := ⟨attrs, chans, [], [], 0, []⟩
  (progsOfDoc d).foldl baseProgStep (baseChanLoop st0 0 chans)

/-- `programmes_map.get(cid, [])` where `cid` may be the absent attribute. -/
def pmGet (pm : List (String × List Programme)) : Option String → List Programme
  | none => []
  | some s => (getAssoc pm s).getD []

/-- The output block of one channel: the channel element followed by the
programmes mapped to its id. -/
def block (pm : List (String × List Programme)) (ch : Channel) : List Item :=
  Item.chan ch :: (pmGet pm ch.id).map Item.prog

/-- The reassembly pass: walking the channels in order, insert each
channel's programmes right after it. -/
def reorder (chans : List Channel) (pm : List (String × List Programme)) : List Item :=
  (chans.map (block pm)).flatten

/-- The document finally written out. -/
def finalDoc (acc : MState) : Doc :=
  ⟨acc.attrs, reorder acc.chans acc.progMap⟩

/-- The loop iterations while `base_root` is still `None` (the first input
failed to parse).  A channel with a usable display-name reaches
`base_root.append(ch)` and raises `AttributeError`; otherwise every
programme lookup in the (necessarily empty) `id_map` fails and warns.
After the loop the reassembly pass dereferences `base_root` and raises. -/
def noBaseRun : List Warning → List (Option Doc) → RunOutcome
  | ws, [] => RunOutcome.crash ws
  | ws, none :: rest => noBaseRun (ws ++ [Warning.parseFail]) rest
  | ws, some d :: rest =>
    if (chansOf d).any (fun ch => ! (getAllNames ch).isEmpty) then
      RunOutcome.crash ws
    else
      noBaseRun (ws ++ (progsOfDoc d).map (fun p => Warning.unmatchedChannel p.channel)) rest

/-- `merge_files`, applied to the already-parsed inputs (`none` = the file
was missing or unparseable, which `parse_tree` reports with a warning). -/
def mergeFiles (inputs : List (Option Doc)) (dateStr : String) : RunOutcome :=
  match inputs with
  | [] => RunOutcome.crash []
  | none :: rest => noBaseRun [Warning.parseFail] rest
  | some d :: rest =>
    let pr := runRest (baseState d dateStr) [] rest
    RunOutcome.ok (some (finalDoc pr.1)) pr.2

/-! Specification-side vocabulary used by the claims. -/

/-- Is this root child a programme element? -/
def isProgItem : Item → Bool
  | Item.prog _ => true
  | Item.chan _ => false

/-- The programme elements of an item list whose `channel` attribute
equals `s`, in order. -/
def progsOf (s : Option String) (l : List Item) : List Item :=
  l.filter fun it =>
    match it with
    | Item.prog p => p.channel = s
    | Item.chan _ => false

/-- The ordering contract of the claim: for every channel element of the
output, the programme elements whose `channel` attribute equals that
channel's id are exactly the items at the positions immediately
following the channel element (hence contiguous, and before the next
channel element). -/
def ClaimC2At (out : Doc) : Prop :=
  ∀ (l₁ : List Item) (ch : Channel) (l₂ : List Item),
    out.items = l₁ ++ Item.chan ch :: l₂ →
    progsOf ch.id out.items = l₂.take (progsOf ch.id out.items).length

/-- Key invariant of `programmes_map`: every programme stored under key
`s` carries `channel="s"`. -/
def PmOk (pm : List (String × List Programme)) : Prop :=
  ∀ s ps, getAssoc pm s = some ps → ∀ p, p ∈ ps → p.channel = some s

/-- `next` extends `cur` channelwise: `cur`'s channels are still present,
in order and at the same positions, with ids unchanged and display-name
children only appended. -/
def ChansExt (cur next : List Channel) : Prop :=
  cur.length ≤ next.length ∧
  ∀ i (hc : i < cur.length) (hn : i < next.length),
    (next.get ⟨i, hn⟩).id = (cur.get ⟨i, hc⟩).id ∧
    ∃ t, (cur.get ⟨i, hc⟩).displayNames ++ t = (next.get ⟨i, hn⟩).displayNames

/-- `s + 0, s + 1, ..., s + (n-1)`: a contiguous strictly increasing run
of integers. -/
def intRange (s : Int) (n : Nat) : List Int :=
  (List.range n).map fun (i : Nat) => s + (i : Int)

/-- No display-name is carried by two distinct channel elements. -/
def NamesDisjoint (chans : List Channel) : Prop :=
  ∀ i j (hi : i < chans.length) (hj : j < chans.length), i ≠ j →
    ∀ n, n ∈ getAllNames chans[i] → n ∉ getAllNames chans[j]

/-- Decidable check of `NamesDisjoint`. -/
def namesDisjointB (chans : List Channel) : Bool :=
  (List.range chans.length).all fun i =>
    (List.range chans.length).all fun j =>
      i == j ||
      (getAllNames (chans.getD i default)).all fun n =>
        ! ((getAllNames (chans.getD j default)).contains n)

/-- Check of one channel-merge step: every accumulated channel other than
the chosen merge target must share no name with the incoming channel
(the incoming names are checked both as read and re-stripped, as the
reassembled document re-reads them).  When this holds at every step,
first-match merging cannot spread a name over two channels. -/
def safeStep (acc : MState) (ch : Channel) : Bool :=
  let chNames := getAllNames ch
  if chNames.isEmpty then true
  else
    let t? := findTarget acc.nameMap chNames
    (List.range acc.chans.length).all fun j =>
      some j == t? ||
      chNames.all fun n =>
        ! ((getAllNames (acc.chans.getD j default)).contains n) &&
        ! ((getAllNames (acc.chans.getD j default)).contains (strip n))

/-- `safeStep` along one document's channel loop. -/
def safeChans : MState → List Channel → Bool
  | _, [] => true
  | acc, ch :: rest => safeStep acc ch && safeChans (mergeChannel acc ch) rest

/-- `safeStep` along the whole run over the non-base inputs. -/
def safeDocs : MState → List (Option Doc) → Bool
  | _, [] => true
  | acc, none :: rest => safeDocs acc rest
  | acc, some d :: rest => safeChans acc (chansOf d) && safeDocs (docStep acc d).1 rest

/-! Basic lemmas about the dict and name-set operations. -/

theorem getAssoc_setAssoc_self {α β : Type} [DecidableEq α] (l : List (α × β)) (k : α) (v : β) :
    getAssoc (setAssoc l k v) k = some v := by
  induction l with
  | nil => simp [setAssoc, getAssoc]
  | cons hd tl ih =>
    obtain ⟨k', v'⟩ := hd
    by_cases hk : k' = k
    · simp [setAssoc, hk, getAssoc]
    · simp [setAssoc, hk, getAssoc, ih]

theorem getAssoc_setAssoc_ne {α β : Type} [DecidableEq α] (l : List (α × β)) (k k' : α) (v : β)
    (h : k' ≠ k) : getAssoc (setAssoc l k v) k' = getAssoc l k' := by
  have h' : k ≠ k' := fun he => h he.symm
  induction l with
  | nil => simp [setAssoc, getAssoc, h']
  | cons hd tl ih =>
    obtain ⟨k₀, v₀⟩ := hd
    by_cases hk : k₀ = k
    · subst hk
      simp [setAssoc, getAssoc, h']
    · simp [setAssoc, hk, getAssoc, ih]

theorem mem_dedupFirst {a : String} : ∀ {l : List String}, a ∈ dedupFirst l ↔ a ∈ l := by
  intro l
  induction l with
  | nil => simp [dedupFirst]
  | cons x xs ih =>
    by_cases hax : a = x
    · simp [dedupFirst, hax]
    · simp [dedupFirst, hax, List.mem_filter, ih]

theorem mem_namesOfTexts {s : String} {texts : List (Option String)} :
    s ∈ namesOfTexts texts ↔ ∃ t : String, some t ∈ texts ∧ t ≠ "" ∧ strip t = s := by
  unfold namesOfTexts
  rw [mem_dedupFirst, List.mem_filterMap]
  constructor
  · rintro ⟨t?, ht, hmap⟩
    match t? with
    | none => simp at hmap
    | some t =>
      by_cases h0 : t = ""
      · simp [h0] at hmap
      · simp only [h0, if_false, Option.some.injEq] at hmap
        exact ⟨t, ht, h0, hmap⟩
  · rintro ⟨t, ht, h0, hs⟩
    exact ⟨some t, ht, by simp [h0, hs]⟩

/-- C9: display-name matching works on stripped text: the name set of a
channel consists of the whitespace-stripped text of each `display-name`
child whose text is present and non-empty, and two display-names that
differ only in surrounding whitespace produce the same name set, hence
the same deduplication key. -/
theorem c9_stripped_name_keys :
    (∀ (ch : Channel) (s : String),
        s ∈ getAllNames ch ↔
          ∃ t : String, some t ∈ ch.displayNames ∧ t ≠ "" ∧ strip t = s) ∧
    (∀ (i₁ i₂ : Option String) (dns : List (Option String)) (u v : String),
        u ≠ "" → v ≠ "" → strip u = strip v →
        getAllNames ⟨i₁, dns ++ [some u]⟩ = getAllNames ⟨i₂, dns ++ [some v]⟩) := by
  constructor
  · intro ch s
    exact mem_namesOfTexts
  · intro i₁ i₂ dns u v hu hv huv
    show namesOfTexts (dns ++ [some u]) = namesOfTexts (dns ++ [some v])
    unfold namesOfTexts
    rw [List.filterMap_append, List.filterMap_append]
    simp [hu, hv, huv]

theorem c9_stripped_name_keys_witness :
    ("a" ∈ getAllNames ⟨none, [some " a "]⟩ ↔
      ∃ t : String, some t ∈ [some " a "] ∧ t ≠ "" ∧ strip t = "a") ∧
    getAllNames ⟨none, [some "x "]⟩ = getAllNames ⟨some "7", [some " x"]⟩ :=
  ⟨c9_stripped_name_keys.1 ⟨none, [some " a "]⟩ "a",
   c9_stripped_name_keys.2 none (some "7") [] "x " " x" (by decide) (by decide) (by decide)⟩

/-! State-shape lemmas: which parts of the state each operation can touch. -/

theorem mergeProgramme_shape (acc : MState) (p : Programme) :
    ∃ pm, (mergeProgramme acc p).1 = { acc with progMap := pm } := by
  unfold mergeProgramme
  split
  · exact ⟨acc.progMap, rfl⟩
  · split
    · exact ⟨acc.progMap, rfl⟩
    · split
      · exact ⟨acc.progMap, rfl⟩
      · exact ⟨_, rfl⟩

theorem progStep_fst (pr : MState × List Warning) (p : Programme) :
    (progStep pr p).1 = (mergeProgramme pr.1 p).1 := by
  unfold progStep
  rcases h : mergeProgramme pr.1 p with ⟨s, w⟩
  rcases w with _ | w <;> rfl

theorem foldl_progStep_shape (ps : List Programme) :
    ∀ (pr : MState × List Warning),
      ∃ pm, (ps.foldl progStep pr).1 = { pr.1 with progMap := pm } := by
  induction ps with
  | nil => intro pr; exact ⟨pr.1.progMap, rfl⟩
  | cons p ps ih =>
    intro pr
    obtain ⟨pm₁, h₁⟩ := ih (progStep pr p)
    obtain ⟨pm₀, h₀⟩ := mergeProgramme_shape pr.1 p
    refine ⟨pm₁, ?_⟩
    rw [List.foldl_cons, h₁, progStep_fst, h₀]

theorem progPhase_shape (acc : MState) (ps : List Programme) :
    ∃ pm, (progPhase acc ps).1 = { acc with progMap := pm } :=
  foldl_progStep_shape ps (acc, [])

/-- The run over the remaining inputs always ends in an uncaught
exception when the base document is absent: either a channel append
dereferences the `None` base root, or the final reorder pass does. -/
theorem noBaseRun_crash : ∀ (inputs : List (Option Doc)) (ws : List Warning),
    ∃ ws', noBaseRun ws inputs = RunOutcome.crash ws' := by
  intro inputs
  induction inputs with
  | nil => intro ws; exact ⟨ws, rfl⟩
  | cons hd tl ih =>
    intro ws
    rcases hd with _ | d
    · exact ih _
    · by_cases hc : ((chansOf d).any fun ch => ! (getAllNames ch).isEmpty) = true
      · exact ⟨ws, by simp [noBaseRun, hc]⟩
      · rw [Bool.not_eq_true] at hc
        simpa [noBaseRun, hc] using ih _

/-- C1: for every merge group whose first input failed to load, the call
crashes with an uncaught exception — it does not return normally, so the
following merge groups in `main`'s loop are never attempted. -/
theorem c1_missing_base_crashes (rest : List (Option Doc)) (dateStr : String) :
    ∃ ws, mergeFiles (none :: rest) dateStr = RunOutcome.crash ws :=
  noBaseRun_crash rest [Warning.parseFail]

/-- C6 counterexample: a channel of a non-base input with a display-name
but no id attribute is not skipped: it is merged in as a new channel
(id `"1"`) and even records an id-map entry under the absent id. -/
theorem c6_counterexample :
    mergeFiles [some ⟨[], []⟩, some ⟨[], [Item.chan ⟨none, [some "X"]⟩]⟩] "20240101000000" =
      RunOutcome.ok
        (some ⟨[("generator-info-name", "tvsilo.vip"),
                ("generator-info-url", "https://github.com/g12777/TV"),
                ("date", "20240101000000")],
               [Item.chan ⟨some "1", [some "X"]⟩]⟩)
        [] ∧
    getAssoc (runRest (baseState ⟨[], []⟩ "20240101000000") []
        [some ⟨[], [Item.chan ⟨none, [some "X"]⟩]⟩]).1.idMap none = some (some "1") :=
  ⟨rfl, rfl⟩

/-- C6 (amended): only channels with no usable display-name are skipped.
A non-base channel whose id is absent or empty but which has a
display-name is processed like any other: an old-id map entry is
recorded under its absent/empty id, and when none of its names matches
it is appended to the accumulator as a new channel. -/
theorem c6_amended (acc : MState) (ch : Channel)
    (hid : ch.id = none ∨ ch.id = some "")
    (hn : (getAllNames ch).isEmpty = false) :
    (getAssoc (mergeChannel acc ch).idMap ch.id).isSome = true ∧
    (findTarget acc.nameMap (getAllNames ch) = none →
      (mergeChannel acc ch).chans.length = acc.chans.length + 1) := by
  clear hid
  rcases hft : findTarget acc.nameMap (getAllNames ch) with _ | t
  · constructor
    · simp [mergeChannel, hn, hft, getAssoc_setAssoc_self]
    · intro _
      simp [mergeChannel, hn, hft]
  · constructor
    · simp [mergeChannel, hn, hft, getAssoc_setAssoc_self]
    · intro hcon
      simp at hcon

theorem c6_amended_witness :
    (getAssoc (mergeChannel (baseState ⟨[], []⟩ "D") ⟨none, [some "X"]⟩).idMap none).isSome
        = true ∧
    (findTarget (baseState ⟨[], []⟩ "D").nameMap (getAllNames ⟨none, [some "X"]⟩) = none →
      (mergeChannel (baseState ⟨[], []⟩ "D") ⟨none, [some "X"]⟩).chans.length =
        (baseState ⟨[], []⟩ "D").chans.length + 1) :=
  c6_amended (baseState ⟨[], []⟩ "D") ⟨none, [some "X"]⟩ (Or.inl rfl) (by decide)

/-- C7 counterexample: a base-document programme whose `channel`
attribute matches no channel is dropped, but silently — no warning is
emitted (the claim requires a warning for base programmes too). -/
theorem c7_counterexample :
    mergeFiles [some ⟨[], [Item.prog ⟨some "99", 0⟩]⟩] "20240101000000" =
      RunOutcome.ok
        (some ⟨[("generator-info-name", "tvsilo.vip"),
                ("generator-info-url", "https://github.com/g12777/TV"),
                ("date", "20240101000000")],
               []⟩)
        [] :=
  rfl

/-- C7 (amended): an unresolved programme reference is always dropped and
processing continues, but only non-base documents warn: a base programme
whose channel is unknown leaves the state unchanged with no warning,
while in a non-base document the failed id-map lookup emits an
"unmatched channel" warning and the programme is dropped. -/
theorem c7_amended :
    (∀ (acc : MState) (p : Programme) (k : String),
        p.channel = some k → getAssoc acc.progMap k = none → baseProgStep acc p = acc) ∧
    (∀ (acc : MState) (p : Programme),
        getAssoc acc.idMap p.channel = none →
        mergeProgramme acc p = (acc, some (Warning.unmatchedChannel p.channel))) := by
  constructor
  · intro acc p k hk hnone
    simp [baseProgStep, hk, hnone]
  · intro acc p hnone
    unfold mergeProgramme
    rw [hnone]

theorem c7_amended_witness :
    baseProgStep ⟨[], [], [], [], 0, []⟩ ⟨some "99", 0⟩ = ⟨[], [], [], [], 0, []⟩ ∧
    mergeProgramme ⟨[], [], [], [], 0, []⟩ ⟨some "99", 0⟩ =
      (⟨[], [], [], [], 0, []⟩, some (Warning.unmatchedChannel (some "99"))) :=
  ⟨c7_amended.1 ⟨[], [], [], [], 0, []⟩ ⟨some "99", 0⟩ "99" rfl rfl,
   c7_amended.2 ⟨[], [], [], [], 0, []⟩ ⟨some "99", 0⟩ rfl⟩

/-- C3 counterexample: `id_map` is not reset between non-base inputs.
The second input maps old id "9" to "1"; the third input has no channels
at all, yet its programme with `channel="9"` is remapped through the
second input's entry (to `"1"`) instead of being warned and dropped. -/
theorem c3_counterexample :
    mergeFiles
        [some ⟨[], []⟩,
         some ⟨[], [Item.chan ⟨some "9", [some "X"]⟩]⟩,
         some ⟨[], [Item.prog ⟨some "9", 5⟩]⟩]
        "20240101000000" =
      RunOutcome.ok
        (some ⟨[("generator-info-name", "tvsilo.vip"),
                ("generator-info-url", "https://github.com/g12777/TV"),
                ("date", "20240101000000")],
               [Item.chan ⟨some "1", [some "X"]⟩,
                Item.prog ⟨some "1", 5⟩]⟩)
        [] :=
  rfl

theorem mergeChannel_idMap_key (acc : MState) (ch : Channel) (k : Option String)
    (h : (getAssoc acc.idMap k).isSome = true) :
    (getAssoc (mergeChannel acc ch).idMap k).isSome = true := by
  simp only [mergeChannel]
  split
  · exact h
  · split
    · by_cases hk : k = ch.id
      · subst hk; simp [getAssoc_setAssoc_self]
      · simpa [getAssoc_setAssoc_ne _ _ _ _ hk] using h
    · by_cases hk : k = ch.id
      · subst hk; simp [getAssoc_setAssoc_self]
      · simpa [getAssoc_setAssoc_ne _ _ _ _ hk] using h

theorem foldl_mergeChannel_idMap_key :
    ∀ (chs : List Channel) (acc : MState) (k : Option String),
      (getAssoc acc.idMap k).isSome = true →
      (getAssoc (chs.foldl mergeChannel acc).idMap k).isSome = true := by
  intro chs
  induction chs with
  | nil => intro acc k h; exact h
  | cons c cs ih => intro acc k h; exact ih _ _ (mergeChannel_idMap_key _ _ _ h)

/-- C3 (amended): the old-id → new-id map is not reset between non-base
inputs; it accumulates for the whole merge group.  An entry present
before a further non-base document is processed is still present (with
some value) afterwards, so a programme whose `channel` attribute matches
an old id recorded from an earlier input document is remapped through
that entry rather than warned and dropped. -/
theorem c3_amended (acc : MState) (d : Doc) (k : Option String) (v : Option String)
    (h : getAssoc acc.idMap k = some v) :
    ∃ v', getAssoc (docStep acc d).1.idMap k = some v' := by
  have h1 : (getAssoc ((chansOf d).foldl mergeChannel acc).idMap k).isSome = true :=
    foldl_mergeChannel_idMap_key _ _ _ (by simp [h])
  obtain ⟨pm, hpm⟩ := progPhase_shape ((chansOf d).foldl mergeChannel acc) (progsOfDoc d)
  unfold docStep
  rw [hpm]
  rcases ho : getAssoc ((chansOf d).foldl mergeChannel acc).idMap k with _ | v'
  · rw [ho] at h1; cases h1
  · exact ⟨v', rfl⟩

theorem c3_amended_witness :
    ∃ v', getAssoc (docStep ⟨[], [], [], [(some "9", some "1")], 0, []⟩ ⟨[], []⟩).1.idMap
        (some "9") = some v' :=
  c3_amended ⟨[], [], [], [(some "9", some "1")], 0, []⟩ ⟨[], []⟩ (some "9") (some "1") rfl

/-! Generic preservation of a state predicate along the merge loop. -/

theorem foldl_mergeChannel_preserves (P : MState → Prop)
    (hmc : ∀ acc ch, P acc → P (mergeChannel acc ch)) :
    ∀ (chs : List Channel) (acc : MState), P acc → P (chs.foldl mergeChannel acc) := by
  intro chs
  induction chs with
  | nil => intro acc h; exact h
  | cons c cs ih => intro acc h; exact ih _ (hmc _ _ h)

theorem foldl_progStep_preserves (P : MState → Prop)
    (hmp : ∀ acc p, P acc → P (mergeProgramme acc p).1) :
    ∀ (ps : List Programme) (pr : MState × List Warning),
      P pr.1 → P (ps.foldl progStep pr).1 := by
  intro ps
  induction ps with
  | nil => intro pr h; exact h
  | cons p ps ih =>
    intro pr h
    apply ih
    rw [progStep_fst]
    exact hmp _ _ h

theorem docStep_preserves (P : MState → Prop)
    (hmc : ∀ acc ch, P acc → P (mergeChannel acc ch))
    (hmp : ∀ acc p, P acc → P (mergeProgramme acc p).1)
    (acc : MState) (d : Doc) (h : P acc) : P (docStep acc d).1 :=
  foldl_progStep_preserves P hmp (progsOfDoc d) ((chansOf d).foldl mergeChannel acc, [])
    (foldl_mergeChannel_preserves P hmc (chansOf d) acc h)

theorem runRest_preserves (P : MState → Prop)
    (hmc : ∀ acc ch, P acc → P (mergeChannel acc ch))
    (hmp : ∀ acc p, P acc → P (mergeProgramme acc p).1) :
    ∀ (inputs : List (Option Doc)) (acc : MState) (ws : List Warning),
      P acc → P (runRest acc ws inputs).1 := by
  intro inputs
  induction inputs with
  | nil => intro acc ws h; exact h
  | cons hd tl ih =>
    intro acc ws h
    rcases hd with _ | d
    · exact ih _ _ h
    · exact ih _ _ (docStep_preserves P hmc hmp acc d h)

/-! The key invariant of `programmes_map`. -/

theorem pmOk_nil : PmOk [] := by
  intro s ps hs
  simp [getAssoc] at hs

theorem pmOk_set (pm : List (String × List Programme)) (k : String) (ps : List Programme)
    (h : PmOk pm) (hv : ∀ p ∈ ps, p.channel = some k) : PmOk (setAssoc pm k ps) := by
  intro s ps' hs p hp
  by_cases hks : s = k
  · subst hks
    rw [getAssoc_setAssoc_self] at hs
    cases hs
    exact hv p hp
  · rw [getAssoc_setAssoc_ne _ _ _ _ hks] at hs
    exact h s ps' hs p hp

theorem mergeChannel_pmOk (acc : MState) (ch : Channel) (h : PmOk acc.progMap) :
    PmOk (mergeChannel acc ch).progMap := by
  simp only [mergeChannel]
  split
  · exact h
  · split
    · exact h
    · exact pmOk_set _ _ _ h (by intro p hp; cases hp)

theorem mergeProgramme_pmOk (acc : MState) (p : Programme) (h : PmOk acc.progMap) :
    PmOk (mergeProgramme acc p).1.progMap := by
  rcases h1 : getAssoc acc.idMap p.channel with _ | o
  · simpa [mergeProgramme, h1] using h
  · rcases o with _ | newId
    · simpa [mergeProgramme, h1] using h
    · by_cases h2 : newId = ""
      · simpa [mergeProgramme, h1, h2] using h
      · simp only [mergeProgramme, h1, h2, if_false]
        apply pmOk_set _ _ _ h
        intro q hq
        rcases List.mem_append.mp hq with hq | hq
        · rcases hg : getAssoc acc.progMap newId with _ | ps
          · rw [hg] at hq; simp at hq
          · rw [hg] at hq
            exact h newId ps hg q hq
        · obtain rfl := List.mem_singleton.mp hq
          rfl

theorem baseProgStep_pmOk (acc : MState) (p : Programme) (h : PmOk acc.progMap) :
    PmOk (baseProgStep acc p).progMap := by
  rcases hc : p.channel with _ | k
  · simpa [baseProgStep, hc] using h
  · rcases hg : getAssoc acc.progMap k with _ | ps
    · simpa [baseProgStep, hc, hg] using h
    · simp only [baseProgStep, hc, hg]
      apply pmOk_set _ _ _ h
      intro q hq
      rcases List.mem_append.mp hq with hq | hq
      · exact h k ps hg q hq
      · obtain rfl := List.mem_singleton.mp hq
        exact hc

theorem baseChanLoop_pmOk : ∀ (l : List Channel) (acc : MState) (i : Nat),
    PmOk acc.progMap → PmOk (baseChanLoop acc i l).progMap := by
  intro l
  induction l with
  | nil => intro acc i h; exact h
  | cons c cs ih =>
    intro acc i h
    simp only [baseChanLoop]
    apply ih
    rcases hc : c.id with _ | cid
    · exact h
    · by_cases h0 : cid = ""
      · simp [h0]
        exact h
      · simp only [h0, if_false]
        exact pmOk_set _ _ _ h (by intro q hq; cases hq)

theorem foldl_baseProgStep_pmOk : ∀ (ps : List Programme) (acc : MState),
    PmOk acc.progMap → PmOk (ps.foldl baseProgStep acc).progMap := by
  intro ps
  induction ps with
  | nil => intro acc h; exact h
  | cons p ps ih => intro acc h; exact ih _ (baseProgStep_pmOk _ _ h)

theorem baseState_pmOk (d : Doc) (dateStr : String) : PmOk (baseState d dateStr).progMap := by
  unfold baseState
  exact foldl_baseProgStep_pmOk _ _ (baseChanLoop_pmOk _ _ _ pmOk_nil)

theorem runRest_pmOk (inputs : List (Option Doc)) (acc : MState) (ws : List Warning)
    (h : PmOk acc.progMap) : PmOk (runRest acc ws inputs).1.progMap :=
  runRest_preserves (fun s => PmOk s.progMap) mergeChannel_pmOk mergeProgramme_pmOk
    inputs acc ws h

/-! Channelwise extension along the merge loop. -/

theorem chansExt_refl (l : List Channel) : ChansExt l l :=
  ⟨le_refl _, fun _ _ _ => ⟨rfl, [], by simp⟩⟩

theorem chansExt_trans {a b c : List Channel} (h1 : ChansExt a b) (h2 : ChansExt b c) :
    ChansExt a c := by
  obtain ⟨hl1, hp1⟩ := h1
  obtain ⟨hl2, hp2⟩ := h2
  refine ⟨le_trans hl1 hl2, ?_⟩
  intro i hc hn
  have hb : i < b.length := lt_of_lt_of_le hc hl1
  obtain ⟨hid1, t1, ht1⟩ := hp1 i hc hb
  obtain ⟨hid2, t2, ht2⟩ := hp2 i hb hn
  exact ⟨hid2.trans hid1, t1 ++ t2, by rw [← ht2, ← ht1, List.append_assoc]⟩

theorem chansExt_set (l : List Channel) : ∀ (t : Nat) (c' : Channel),
    c'.id = (l.getD t default).id →
    (∃ e, (l.getD t default).displayNames ++ e = c'.displayNames) →
    ChansExt l (l.set t c') := by
  induction l with
  | nil => intro t c' _ _; simpa using chansExt_refl []
  | cons x xs ih =>
    intro t c' hid hdn
    rcases t with _ | t
    · refine ⟨by simp, ?_⟩
      intro i hc hn
      rcases i with _ | i
      · exact ⟨hid, hdn⟩
      · exact ⟨rfl, [], by simp⟩
    · obtain ⟨hl, hp⟩ := ih t c' hid hdn
      refine ⟨by simpa using hl, ?_⟩
      intro i hc hn
      rcases i with _ | i
      · exact ⟨rfl, [], by simp⟩
      · exact hp i (by simpa using hc) (by simpa using hn)

theorem chansExt_append (l : List Channel) (c : Channel) : ChansExt l (l ++ [c]) := by
  refine ⟨by simp, ?_⟩
  intro i hc hn
  rw [List.get_append i hc]
  exact ⟨rfl, [], by simp⟩

theorem mergeChannel_chansExt (acc : MState) (ch : Channel) :
    ChansExt acc.chans (mergeChannel acc ch).chans := by
  simp only [mergeChannel]
  split
  · exact chansExt_refl _
  · split
    · exact chansExt_set _ _ _ rfl ⟨_, rfl⟩
    · exact chansExt_append _ _

theorem mergeProgramme_chans (acc : MState) (p : Programme) :
    (mergeProgramme acc p).1.chans = acc.chans := by
  obtain ⟨pm, h⟩ := mergeProgramme_shape acc p
  rw [h]

theorem mergeChannel_attrs (acc : MState) (ch : Channel) :
    (mergeChannel acc ch).attrs = acc.attrs := by
  simp only [mergeChannel]
  split
  · rfl
  · split <;> rfl

theorem runRest_chansExt (inputs : List (Option Doc)) (acc : MState) (ws : List Warning) :
    ChansExt acc.chans (runRest acc ws inputs).1.chans :=
  runRest_preserves (fun s => ChansExt acc.chans s.chans)
    (fun a c hh => chansExt_trans hh (mergeChannel_chansExt a c))
    (fun a p hh => by
      show ChansExt acc.chans (mergeProgramme a p).1.chans
      rw [mergeProgramme_chans]; exact hh)
    inputs acc ws (chansExt_refl _)

theorem runRest_attrs (inputs : List (Option Doc)) (acc : MState) (ws : List Warning) :
    (runRest acc ws inputs).1.attrs = acc.attrs :=
  runRest_preserves (fun s => s.attrs = acc.attrs)
    (fun a c hh => by
      show (mergeChannel a c).attrs = acc.attrs
      rw [mergeChannel_attrs]; exact hh)
    (fun a p hh => by
      show (mergeProgramme a p).1.attrs = acc.attrs
      obtain ⟨pm, h⟩ := mergeProgramme_shape a p
      rw [h]; exact hh)
    inputs acc ws rfl

/-! Shape of the base-ingestion state. -/

theorem baseChanLoop_shape : ∀ (l : List Channel) (acc : MState) (i : Nat),
    ∃ nm mx pm, baseChanLoop acc i l = { acc with nameMap := nm, maxId := mx, progMap := pm } := by
  intro l
  induction l with
  | nil => intro acc i; exact ⟨acc.nameMap, acc.maxId, acc.progMap, rfl⟩
  | cons c cs ih =>
    intro acc i
    simp only [baseChanLoop]
    rcases hc : c.id with _ | cid
    · exact ih _ _
    · by_cases h0 : cid = ""
      · simp only [h0, if_true]
        exact ih _ _
      · simp only [h0, if_false]
        obtain ⟨nm, mx, pm, h⟩ := ih
            { acc with
                nameMap := (getAllNames c).foldl (fun m n => setAssoc m n i) acc.nameMap
                maxId :=
                  match pyInt cid with
                  | some v => max acc.maxId v
                  | none => acc.maxId
                progMap := setAssoc acc.progMap cid [] } (i + 1)
        exact ⟨nm, mx, pm, h⟩

theorem baseProgStep_shape (acc : MState) (p : Programme) :
    ∃ pm, baseProgStep acc p = { acc with progMap := pm } := by
  rcases hc : p.channel with _ | k
  · exact ⟨acc.progMap, by simp [baseProgStep, hc]⟩
  · rcases hg : getAssoc acc.progMap k with _ | ps
    · exact ⟨acc.progMap, by simp [baseProgStep, hc, hg]⟩
    · exact ⟨setAssoc acc.progMap k (ps ++ [p]), by simp [baseProgStep, hc, hg]⟩

theorem foldl_baseProgStep_shape : ∀ (ps : List Programme) (acc : MState),
    ∃ pm, ps.foldl baseProgStep acc = { acc with progMap := pm } := by
  intro ps
  induction ps with
  | nil => intro acc; exact ⟨acc.progMap, rfl⟩
  | cons p ps ih =>
    intro acc
    obtain ⟨pm₀, h₀⟩ := baseProgStep_shape acc p
    obtain ⟨pm₁, h₁⟩ := ih (baseProgStep acc p)
    refine ⟨pm₁, ?_⟩
    rw [List.foldl_cons, h₁, h₀]

theorem baseState_chans (d : Doc) (dateStr : String) :
    (baseState d dateStr).chans = chansOf d := by
  unfold baseState
  obtain ⟨nm, mx, pm, h1⟩ := baseChanLoop_shape (chansOf d) _ 0
  obtain ⟨pm', h2⟩ := foldl_baseProgStep_shape (progsOfDoc d) _
  rw [h2, h1]

theorem baseState_attrs (d : Doc) (dateStr : String) :
    (baseState d dateStr).attrs =
      setAssoc
        (setAssoc (setAssoc d.attrs "generator-info-name" "tvsilo.vip")
          "generator-info-url" "https://github.com/g12777/TV")
        "date" dateStr := by
  unfold baseState
  obtain ⟨nm, mx, pm, h1⟩ := baseChanLoop_shape (chansOf d) _ 0
  obtain ⟨pm', h2⟩ := foldl_baseProgStep_shape (progsOfDoc d) _
  rw [h2, h1]

/-! Relating the written document to the final state. -/

theorem filterMap_chan_map_prog (ps : List Programme) :
    (ps.map Item.prog).filterMap
        (fun it => match it with | Item.chan c => some c | Item.prog _ => none) =
      ([] : List Channel) := by
  induction ps with
  | nil => rfl
  | cons p ps ih => simpa using ih

theorem filterMap_chan_blocks (pm : List (String × List Programme)) :
    ∀ chans : List Channel,
      ((chans.map (block pm)).flatten).filterMap
        (fun it => match it with | Item.chan c => some c | Item.prog _ => none) = chans := by
  intro chans
  induction chans with
  | nil => rfl
  | cons c cs ih =>
    rw [List.map_cons, List.flatten_cons, List.filterMap_append, ih]
    rw [block, List.filterMap_cons]
    simp [filterMap_chan_map_prog]

theorem chansOf_finalDoc (acc : MState) : chansOf (finalDoc acc) = acc.chans :=
  filterMap_chan_blocks acc.progMap acc.chans

theorem mergeFiles_ok_parts (base : Doc) (rest : List (Option Doc)) (dateStr : String)
    (out : Doc) (ws : List Warning)
    (h : mergeFiles (some base :: rest) dateStr = RunOutcome.ok (some out) ws) :
    out = finalDoc (runRest (baseState base dateStr) [] rest).1 := by
  have h' : RunOutcome.ok (some (finalDoc (runRest (baseState base dateStr) [] rest).1))
      ((runRest (baseState base dateStr) [] rest).2) = RunOutcome.ok (some out) ws := h
  injection h' with h1 h2
  exact (Option.some.inj h1).symm

/-- C10: merging only rewrites the three root attributes
`generator-info-name`, `generator-info-url` and `date` (every other root
attribute reads back unchanged), and the base document's channel
elements survive in their original order and positions, ids unchanged,
with display-name children only appended; newly introduced channels come
after them. -/
theorem c10_root_frame (base : Doc) (rest : List (Option Doc)) (dateStr : String)
    (out : Doc) (ws : List Warning)
    (h : mergeFiles (some base :: rest) dateStr = RunOutcome.ok (some out) ws) :
    getAssoc out.attrs "generator-info-name" = some "tvsilo.vip" ∧
    getAssoc out.attrs "generator-info-url" = some "https://github.com/g12777/TV" ∧
    getAssoc out.attrs "date" = some dateStr ∧
    (∀ key : String,
        key ≠ "generator-info-name" → key ≠ "generator-info-url" → key ≠ "date" →
        getAssoc out.attrs key = getAssoc base.attrs key) ∧
    ChansExt (chansOf base) (chansOf out) := by
  obtain rfl := mergeFiles_ok_parts base rest dateStr out ws h
  have hA : (finalDoc (runRest (baseState base dateStr) [] rest).1).attrs =
      setAssoc
        (setAssoc (setAssoc base.attrs "generator-info-name" "tvsilo.vip")
          "generator-info-url" "https://github.com/g12777/TV")
        "date" dateStr := by
    show (runRest (baseState base dateStr) [] rest).1.attrs = _
    rw [runRest_attrs, baseState_attrs]
  have hC : chansOf (finalDoc (runRest (baseState base dateStr) [] rest).1) =
      (runRest (baseState base dateStr) [] rest).1.chans := chansOf_finalDoc _
  refine ⟨?_, ?_, ?_, ?_, ?_⟩
  · rw [hA, getAssoc_setAssoc_ne _ _ _ _ (by decide), getAssoc_setAssoc_ne _ _ _ _ (by decide),
      getAssoc_setAssoc_self]
  · rw [hA, getAssoc_setAssoc_ne _ _ _ _ (by decide), getAssoc_setAssoc_self]
  · rw [hA, getAssoc_setAssoc_self]
  · intro key h1 h2 h3
    rw [hA, getAssoc_setAssoc_ne _ _ _ _ h3, getAssoc_setAssoc_ne _ _ _ _ h2,
      getAssoc_setAssoc_ne _ _ _ _ h1]
  · rw [hC]
    have hext := runRest_chansExt rest (baseState base dateStr) []
    rwa [baseState_chans] at hext

theorem c10_root_frame_witness :
    getAssoc [("generator-info-name", "tvsilo.vip"),
        ("generator-info-url", "https://github.com/g12777/TV"),
        ("date", "20240101000000")] "generator-info-name" = some "tvsilo.vip" ∧
    getAssoc [("generator-info-name", "tvsilo.vip"),
        ("generator-info-url", "https://github.com/g12777/TV"),
        ("date", "20240101000000")] "generator-info-url" =
      some "https://github.com/g12777/TV" ∧
    getAssoc [("generator-info-name", "tvsilo.vip"),
        ("generator-info-url", "https://github.com/g12777/TV"),
        ("date", "20240101000000")] "date" = some "20240101000000" ∧
    (∀ key : String,
        key ≠ "generator-info-name" → key ≠ "generator-info-url" → key ≠ "date" →
        getAssoc [("generator-info-name", "tvsilo.vip"),
          ("generator-info-url", "https://github.com/g12777/TV"),
          ("date", "20240101000000")] key = getAssoc ([] : List (String × String)) key) ∧
    ChansExt (chansOf ⟨[], [Item.chan ⟨some "1", [some "CNN"]⟩]⟩)
      (chansOf ⟨[("generator-info-name", "tvsilo.vip"),
          ("generator-info-url", "https://github.com/g12777/TV"),
          ("date", "20240101000000")],
        [Item.chan ⟨some "1", [some "CNN"]⟩, Item.prog ⟨some "1", 7⟩]⟩) :=
  c10_root_frame ⟨[], [Item.chan ⟨some "1", [some "CNN"]⟩]⟩
    [some ⟨[], [Item.chan ⟨some "9", [some "CNN"]⟩, Item.prog ⟨some "9", 7⟩]⟩]
    "20240101000000"
    ⟨[("generator-info-name", "tvsilo.vip"),
      ("generator-info-url", "https://github.com/g12777/TV"),
      ("date", "20240101000000")],
     [Item.chan ⟨some "1", [some "CNN"]⟩, Item.prog ⟨some "1", 7⟩]⟩
    [] rfl

/-! The id counter and the ids handed to new channels. -/

theorem intRange_succ (s : Int) (k : Nat) : intRange s (k + 1) = intRange s k ++ [s + k] := by
  unfold intRange
  rw [List.range_succ, List.map_append]
  rfl

theorem mem_intRange {v s : Int} {n : Nat} (h : v ∈ intRange s n) : s ≤ v ∧ v < s + n := by
  unfold intRange at h
  obtain ⟨i, hi, rfl⟩ := List.mem_map.mp h
  have := List.mem_range.mp hi
  omega

theorem map_id_set : ∀ (l : List Channel) (t : Nat) (c' : Channel),
    c'.id = (l.getD t default).id → (l.set t c').map Channel.id = l.map Channel.id := by
  intro l
  induction l with
  | nil => intro t c' _; rfl
  | cons x xs ih =>
    intro t c' h
    rcases t with _ | t
    · simp only [List.set, List.map_cons]
      rw [h]
      rfl
    · simp only [List.set, List.map_cons]
      rw [ih t c' h]

theorem map_id_set_upd (l : List Channel) (t : Nat) (e : List (Option String)) :
    (l.set t { l.getD t default with displayNames := e }).map Channel.id =
      l.map Channel.id :=
  map_id_set l t _ rfl

theorem mergeChannel_ids (m0 : Int) (baseIds : List (Option String)) (acc : MState)
    (ch : Channel)
    (h : ∃ k : Nat, acc.maxId = m0 + k ∧
        acc.chans.map Channel.id =
          baseIds ++ (intRange (m0 + 1) k).map (fun v => some (toString v))) :
    ∃ k : Nat, (mergeChannel acc ch).maxId = m0 + k ∧
        (mergeChannel acc ch).chans.map Channel.id =
          baseIds ++ (intRange (m0 + 1) k).map (fun v => some (toString v)) := by
  obtain ⟨k, hm, hl⟩ := h
  simp only [mergeChannel]
  split
  · exact ⟨k, hm, hl⟩
  · split
    · refine ⟨k, hm, ?_⟩
      show (acc.chans.set _ _).map Channel.id = _
      rw [map_id_set_upd]
      exact hl
    · refine ⟨k + 1, ?_, ?_⟩
      · show acc.maxId + 1 = m0 + ((k : Int) + 1)
        rw [hm]; ring
      · show (acc.chans ++ [_]).map Channel.id = _
        have he : acc.maxId + 1 = (m0 + 1) + (k : Int) := by rw [hm]; ring
        rw [List.map_append, hl, List.append_assoc, intRange_succ, List.map_append]
        simp [he]

theorem baseChanLoop_maxId_le : ∀ (l : List Channel) (acc : MState) (i : Nat),
    acc.maxId ≤ (baseChanLoop acc i l).maxId := by
  intro l
  induction l with
  | nil => intro acc i; exact le_refl _
  | cons c cs ih =>
    intro acc i
    simp only [baseChanLoop]
    refine le_trans ?_ (ih _ _)
    rcases hc : c.id with _ | cid
    · exact le_refl _
    · by_cases h0 : cid = ""
      · simp [h0]
      · simp only [h0, if_false]
        rcases hp : pyInt cid with _ | v
        · exact le_refl _
        · exact le_max_left _ _

theorem baseChanLoop_maxId_bound : ∀ (l : List Channel) (acc : MState) (i : Nat)
    (c : Channel), c ∈ l → ∀ (s : String) (v : Int),
    c.id = some s → pyInt s = some v → v ≤ (baseChanLoop acc i l).maxId := by
  intro l
  induction l with
  | nil => intro acc i c hc; cases hc
  | cons x xs ih =>
    intro acc i c hc s v h1 h2
    rcases List.mem_cons.mp hc with rfl | hc
    · simp only [baseChanLoop]
      refine le_trans ?_ (baseChanLoop_maxId_le xs _ (i + 1))
      rw [h1]
      by_cases h0 : s = ""
      · subst h0
        rw [show pyInt "" = none from rfl] at h2
        cases h2
      · simp only [h0, if_false]
        rw [h2]
        exact le_max_right _ _
    · simp only [baseChanLoop]
      exact ih _ _ c hc s v h1 h2

theorem baseState_maxId (d : Doc) (dateStr : String) :
    (baseState d dateStr).maxId =
      (baseChanLoop
        ⟨setAssoc (setAssoc (setAssoc d.attrs "generator-info-name" "tvsilo.vip")
            "generator-info-url" "https://github.com/g12777/TV") "date" dateStr,
          chansOf d, [], [], 0, []⟩ 0 (chansOf d)).maxId := by
  unfold baseState
  obtain ⟨pm', hsh⟩ := foldl_baseProgStep_shape (progsOfDoc d)
      (baseChanLoop
        ⟨setAssoc (setAssoc (setAssoc d.attrs "generator-info-name" "tvsilo.vip")
            "generator-info-url" "https://github.com/g12777/TV") "date" dateStr,
          chansOf d, [], [], 0, []⟩ 0 (chansOf d))
  rw [hsh]

theorem baseState_maxId_bound (base : Doc) (dateStr : String) (c : Channel)
    (hc : c ∈ chansOf base) (s : String) (v : Int)
    (h1 : c.id = some s) (h2 : pyInt s = some v) :
    v ≤ (baseState base dateStr).maxId := by
  rw [baseState_maxId]
  exact baseChanLoop_maxId_bound _ _ _ c hc s v h1 h2

/-- C4: the id of every channel newly introduced by a merge is the
decimal string of an integer; within one merge group these integers form
the contiguous strictly increasing sequence `m0+1, m0+2, ...` appended
after the base channels in order of introduction, where `m0` is the id
counter after base ingestion; `m0` dominates every numeric base-channel
id (non-numeric ids are ignored without error), so every assigned
integer is strictly greater than every numeric id already in the
accumulator. -/
theorem c4_new_id_assignment (base : Doc) (rest : List (Option Doc)) (dateStr : String)
    (out : Doc) (ws : List Warning)
    (h : mergeFiles (some base :: rest) dateStr = RunOutcome.ok (some out) ws) :
    (∀ c ∈ chansOf base, ∀ (s : String) (v : Int),
        c.id = some s → pyInt s = some v → v ≤ (baseState base dateStr).maxId) ∧
    ∃ k : Nat,
      (chansOf out).map Channel.id =
        (chansOf base).map Channel.id ++
          (intRange ((baseState base dateStr).maxId + 1) k).map (fun v => some (toString v)) ∧
      ∀ v ∈ intRange ((baseState base dateStr).maxId + 1) k,
        (baseState base dateStr).maxId < v := by
  obtain rfl := mergeFiles_ok_parts base rest dateStr out ws h
  constructor
  · intro c hc s v h1 h2
    exact baseState_maxId_bound base dateStr c hc s v h1 h2
  · have hinv := runRest_preserves
      (fun st => ∃ k : Nat, st.maxId = (baseState base dateStr).maxId + k ∧
          st.chans.map Channel.id =
            (chansOf base).map Channel.id ++
              (intRange ((baseState base dateStr).maxId + 1) k).map
                (fun v => some (toString v)))
      (fun a c hh => mergeChannel_ids _ _ a c hh)
      (fun a p hh => by
        obtain ⟨pm, hsh⟩ := mergeProgramme_shape a p
        show ∃ k : Nat, (mergeProgramme a p).1.maxId = _ ∧
            (mergeProgramme a p).1.chans.map Channel.id = _
        rw [hsh]
        exact hh)
      rest (baseState base dateStr) []
      ⟨0, by simp, by rw [baseState_chans]; simp [intRange]⟩
    obtain ⟨k, hm, hl⟩ := hinv
    refine ⟨k, ?_, ?_⟩
    · rw [chansOf_finalDoc]
      exact hl
    · intro v hv
      have := mem_intRange hv
      omega

theorem c4_new_id_assignment_witness :
    (∀ c ∈ chansOf (⟨[], [Item.chan ⟨some "5", [some "BBC"]⟩]⟩ : Doc), ∀ (s : String) (v : Int),
        c.id = some s → pyInt s = some v →
        v ≤ (baseState ⟨[], [Item.chan ⟨some "5", [some "BBC"]⟩]⟩ "20240101000000").maxId) ∧
    ∃ k : Nat,
      (chansOf ⟨[("generator-info-name", "tvsilo.vip"),
          ("generator-info-url", "https://github.com/g12777/TV"),
          ("date", "20240101000000")],
        [Item.chan ⟨some "5", [some "BBC"]⟩,
         Item.chan ⟨some "6", [some "Fox"]⟩]⟩).map Channel.id =
        (chansOf (⟨[], [Item.chan ⟨some "5", [some "BBC"]⟩]⟩ : Doc)).map Channel.id ++
          (intRange
            ((baseState ⟨[], [Item.chan ⟨some "5", [some "BBC"]⟩]⟩ "20240101000000").maxId + 1)
            k).map (fun v => some (toString v)) ∧
      ∀ v ∈ intRange
          ((baseState ⟨[], [Item.chan ⟨some "5", [some "BBC"]⟩]⟩ "20240101000000").maxId + 1) k,
        (baseState ⟨[], [Item.chan ⟨some "5", [some "BBC"]⟩]⟩ "20240101000000").maxId < v :=
  c4_new_id_assignment ⟨[], [Item.chan ⟨some "5", [some "BBC"]⟩]⟩
    [some ⟨[], [Item.chan ⟨some "2", [some "Fox"]⟩]⟩] "20240101000000"
    ⟨[("generator-info-name", "tvsilo.vip"),
      ("generator-info-url", "https://github.com/g12777/TV"),
      ("date", "20240101000000")],
     [Item.chan ⟨some "5", [some "BBC"]⟩, Item.chan ⟨some "6", [some "Fox"]⟩]⟩
    [] rfl

/-! The ordering contract of the reassembly pass. -/

theorem reorder_cons (c : Channel) (cs : List Channel) (pm : List (String × List Programme)) :
    reorder (c :: cs) pm = block pm c ++ reorder cs pm := by
  unfold reorder
  rw [List.map_cons, List.flatten_cons]

theorem reorder_append (a b : List Channel) (pm : List (String × List Programme)) :
    reorder (a ++ b) pm = reorder a pm ++ reorder b pm := by
  unfold reorder
  rw [List.map_append, List.flatten_append]

theorem progsOf_append (s : Option String) (a b : List Item) :
    progsOf s (a ++ b) = progsOf s a ++ progsOf s b := by
  unfold progsOf
  rw [List.filter_append]

theorem progsOf_chan (s : Option String) (c : Channel) (l : List Item) :
    progsOf s (Item.chan c :: l) = progsOf s l := by
  unfold progsOf
  rw [List.filter_cons]
  simp

theorem pmGet_channel (pm : List (String × List Programme)) (hpm : PmOk pm)
    (cid : Option String) (p : Programme) (hp : p ∈ pmGet pm cid) : p.channel = cid := by
  rcases cid with _ | s
  · cases hp
  · rcases hg : getAssoc pm s with _ | ps
    · rw [show pmGet pm (some s) = (getAssoc pm s).getD [] from rfl, hg] at hp
      cases hp
    · rw [show pmGet pm (some s) = (getAssoc pm s).getD [] from rfl, hg] at hp
      exact hpm s ps hg p hp

theorem progsOf_map_prog_all (s : Option String) (ps : List Programme)
    (hall : ∀ p ∈ ps, p.channel = s) :
    progsOf s (ps.map Item.prog) = ps.map Item.prog := by
  induction ps with
  | nil => rfl
  | cons p ps ih =>
    have hp : p.channel = s := hall p (List.mem_cons_self _ _)
    have ih' := ih (fun q hq => hall q (List.mem_cons_of_mem _ hq))
    unfold progsOf at ih' ⊢
    rw [List.map_cons, List.filter_cons]
    simp [hp, ih']

theorem progsOf_map_prog_ne (s : Option String) (ps : List Programme)
    (hall : ∀ p ∈ ps, p.channel ≠ s) :
    progsOf s (ps.map Item.prog) = [] := by
  induction ps with
  | nil => rfl
  | cons p ps ih =>
    have hp : p.channel ≠ s := hall p (List.mem_cons_self _ _)
    have ih' := ih (fun q hq => hall q (List.mem_cons_of_mem _ hq))
    unfold progsOf at ih' ⊢
    rw [List.map_cons, List.filter_cons]
    simp [hp, ih']

theorem progsOf_reorder_ne (pm : List (String × List Programme)) (hpm : PmOk pm)
    (cid : Option String) :
    ∀ cs : List Channel, (∀ c ∈ cs, c.id ≠ cid) → progsOf cid (reorder cs pm) = [] := by
  intro cs
  induction cs with
  | nil => intro _; rfl
  | cons c cs ih =>
    intro hcs
    rw [reorder_cons, progsOf_append, block, progsOf_chan]
    rw [progsOf_map_prog_ne _ _ (fun p hp => by
      rw [pmGet_channel pm hpm c.id p hp]
      exact hcs c (List.mem_cons_self _ _))]
    rw [ih (fun x hx => hcs x (List.mem_cons_of_mem _ hx))]
    rfl

theorem prog_split (ch : Channel) : ∀ (ps : List Programme) (r l₁ l₂ : List Item),
    ps.map Item.prog ++ r = l₁ ++ Item.chan ch :: l₂ →
    ∃ l₁', l₁ = ps.map Item.prog ++ l₁' ∧ r = l₁' ++ Item.chan ch :: l₂ := by
  intro ps
  induction ps with
  | nil => intro r l₁ l₂ h; exact ⟨l₁, by simp, by simpa using h⟩
  | cons p ps ih =>
    intro r l₁ l₂ h
    rcases l₁ with _ | ⟨y, l₁⟩
    · rw [List.map_cons, List.cons_append, List.nil_append] at h
      injection h with h1 _
      cases h1
    · rw [List.map_cons, List.cons_append, List.cons_append] at h
      injection h with h1 h2
      obtain ⟨l₁', ha, hb⟩ := ih r l₁ l₂ h2
      exact ⟨l₁', by rw [List.map_cons, List.cons_append, ha, h1], hb⟩

theorem reorder_split (pm : List (String × List Programme)) :
    ∀ (chans : List Channel) (l₁ : List Item) (ch : Channel) (l₂ : List Item),
      reorder chans pm = l₁ ++ Item.chan ch :: l₂ →
      ∃ c₁ c₂, chans = c₁ ++ ch :: c₂ ∧ l₁ = reorder c₁ pm ∧
        l₂ = (pmGet pm ch.id).map Item.prog ++ reorder c₂ pm := by
  intro chans
  induction chans with
  | nil =>
    intro l₁ ch l₂ h
    rw [show reorder [] pm = [] from rfl] at h
    exact absurd h (by simp)
  | cons c cs ih =>
    intro l₁ ch l₂ h
    rw [reorder_cons, block] at h
    rcases l₁ with _ | ⟨x, l₁⟩
    · rw [List.cons_append, List.nil_append] at h
      injection h with h1 h2
      injection h1 with h1
      subst h1
      exact ⟨[], cs, rfl, rfl, h2.symm⟩
    · rw [List.cons_append, List.cons_append] at h
      injection h with h1 h2
      obtain ⟨l₁', hl₁, hr⟩ := prog_split ch _ _ _ _ h2
      obtain ⟨c₁, c₂, hc, hl, hrest⟩ := ih l₁' ch l₂ hr
      refine ⟨c :: c₁, c₂, by rw [hc]; rfl, ?_, hrest⟩
      rw [← h1, hl₁, hl, reorder_cons, block]
      exact (List.cons_append _ _ _).symm

theorem reorder_contiguity (chans : List Channel) (pm : List (String × List Programme))
    (hpm : PmOk pm) (hnd : (chans.map Channel.id).Nodup) :
    ∀ (l₁ : List Item) (ch : Channel) (l₂ : List Item),
      reorder chans pm = l₁ ++ Item.chan ch :: l₂ →
      progsOf ch.id (reorder chans pm) =
        l₂.take (progsOf ch.id (reorder chans pm)).length := by
  intro l₁ ch l₂ h
  obtain ⟨c₁, c₂, hc, hl₁, hl₂⟩ := reorder_split pm chans l₁ ch l₂ h
  subst hc hl₁ hl₂
  have hnd' := hnd
  rw [List.map_append, List.map_cons] at hnd'
  have hd1 : ch.id ∉ c₁.map Channel.id := fun hmem =>
    (List.disjoint_of_nodup_append hnd') hmem (List.mem_cons_self _ _)
  have hd2 : ch.id ∉ c₂.map Channel.id :=
    (List.nodup_cons.mp (List.Nodup.of_append_right hnd')).1
  have hm1 : ∀ c ∈ c₁, c.id ≠ ch.id := fun c hcm he =>
    hd1 (he ▸ List.mem_map_of_mem Channel.id hcm)
  have hm2 : ∀ c ∈ c₂, c.id ≠ ch.id := fun c hcm he =>
    hd2 (he ▸ List.mem_map_of_mem Channel.id hcm)
  have hsplit : reorder (c₁ ++ ch :: c₂) pm =
      reorder c₁ pm ++ (Item.chan ch :: ((pmGet pm ch.id).map Item.prog ++ reorder c₂ pm)) := by
    rw [reorder_append, reorder_cons, block]
    simp
  rw [hsplit, progsOf_append, progsOf_chan, progsOf_append]
  rw [progsOf_reorder_ne pm hpm ch.id c₁ hm1, progsOf_reorder_ne pm hpm ch.id c₂ hm2]
  rw [progsOf_map_prog_all _ _ (fun p hp => pmGet_channel pm hpm ch.id p hp)]
  rw [List.nil_append, List.append_nil]
  exact (List.take_left _ _).symm

/-- C2 counterexample: when two base channels share the id "1", the
programmes keyed "1" are re-inserted after each of them, so the
programme elements with `channel="1"` are neither unique nor contiguous
after one channel element; the claim fails as stated. -/
theorem c2_counterexample :
    mergeFiles
        [some ⟨[], [Item.chan ⟨some "1", [some "CNN"]⟩, Item.chan ⟨some "1", [some "Fox"]⟩,
                    Item.prog ⟨some "1", 3⟩]⟩]
        "20240101000000" =
      RunOutcome.ok
        (some ⟨[("generator-info-name", "tvsilo.vip"),
                ("generator-info-url", "https://github.com/g12777/TV"),
                ("date", "20240101000000")],
               [Item.chan ⟨some "1", [some "CNN"]⟩, Item.prog ⟨some "1", 3⟩,
                Item.chan ⟨some "1", [some "Fox"]⟩, Item.prog ⟨some "1", 3⟩]⟩)
        [] ∧
    ¬ ClaimC2At
        ⟨[("generator-info-name", "tvsilo.vip"),
          ("generator-info-url", "https://github.com/g12777/TV"),
          ("date", "20240101000000")],
         [Item.chan ⟨some "1", [some "CNN"]⟩, Item.prog ⟨some "1", 3⟩,
          Item.chan ⟨some "1", [some "Fox"]⟩, Item.prog ⟨some "1", 3⟩]⟩ := by
  constructor
  · rfl
  · intro hcl
    have hinst := hcl [] ⟨some "1", [some "CNN"]⟩
        [Item.prog ⟨some "1", 3⟩, Item.chan ⟨some "1", [some "Fox"]⟩, Item.prog ⟨some "1", 3⟩]
        rfl
    exact absurd hinst (by decide)

/-- C2 (amended): provided the channel elements of the output carry
pairwise distinct ids (which holds whenever the base document's channel
ids are distinct), every programme element whose `channel` attribute
equals a channel's id sits in the contiguous run immediately after that
channel element and before the next one, and that run consists exactly
of those programmes; a channel with no mapped programmes is followed
directly by the next channel. -/
theorem c2_programmes_follow_channel (inputs : List (Option Doc)) (dateStr : String)
    (out : Doc) (ws : List Warning)
    (h : mergeFiles inputs dateStr = RunOutcome.ok (some out) ws)
    (hnd : ((chansOf out).map Channel.id).Nodup) :
    ClaimC2At out := by
  rcases inputs with _ | ⟨d0, rest⟩
  · simp [mergeFiles] at h
  · rcases d0 with _ | base
    · obtain ⟨ws', hcr⟩ := noBaseRun_crash rest [Warning.parseFail]
      rw [show mergeFiles (none :: rest) dateStr = noBaseRun [Warning.parseFail] rest from rfl,
        hcr] at h
      simp at h
    · obtain rfl := mergeFiles_ok_parts base rest dateStr out ws h
      intro l₁ ch l₂ hsplit
      have hpm : PmOk (runRest (baseState base dateStr) [] rest).1.progMap :=
        runRest_pmOk _ _ _ (baseState_pmOk base dateStr)
      have hnd' : (((runRest (baseState base dateStr) [] rest).1.chans).map Channel.id).Nodup := by
        rwa [chansOf_finalDoc] at hnd
      exact reorder_contiguity _ _ hpm hnd' l₁ ch l₂ hsplit

theorem c2_programmes_follow_channel_witness :
    ClaimC2At
      ⟨[("generator-info-name", "tvsilo.vip"),
        ("generator-info-url", "https://github.com/g12777/TV"),
        ("date", "20240101000000")],
       [Item.chan ⟨some "1", [some "CNN"]⟩,
        Item.prog ⟨some "1", 7⟩]⟩ :=
  c2_programmes_follow_channel
    [some ⟨[], [Item.chan ⟨some "1", [some "CNN"]⟩]⟩,
     some ⟨[], [Item.chan ⟨some "9", [some "CNN"]⟩, Item.prog ⟨some "9", 7⟩]⟩]
    "20240101000000"
    ⟨[("generator-info-name", "tvsilo.vip"),
      ("generator-info-url", "https://github.com/g12777/TV"),
      ("date", "20240101000000")],
     [Item.chan ⟨some "1", [some "CNN"]⟩, Item.prog ⟨some "1", 7⟩]⟩
    [] rfl (by decide)

/-! Display-name disjointness under checked first-match merging. -/

theorem contains_false_not_mem {l : List String} {n : String}
    (h : l.contains n = false) : n ∉ l := by
  intro hmem
  have h2 : l.contains n = true := List.elem_iff.mpr hmem
  rw [h] at h2
  cases h2

theorem namesDisjointB_sound (chans : List Channel)
    (h : namesDisjointB chans = true) : NamesDisjoint chans := by
  intro i j hi hj hij n hni hnj
  unfold namesDisjointB at h
  rw [List.all_eq_true] at h
  have h1 := h i (List.mem_range.mpr hi)
  rw [List.all_eq_true] at h1
  have h2 := h1 j (List.mem_range.mpr hj)
  rw [Bool.or_eq_true] at h2
  rcases h2 with he | hall
  · exact hij (beq_iff_eq.mp he)
  · rw [List.all_eq_true] at hall
    rw [List.getD_eq_getElem _ _ hi, List.getD_eq_getElem _ _ hj] at hall
    have h3 := hall n hni
    rw [Bool.not_eq_true'] at h3
    exact contains_false_not_mem h3 hnj

theorem safeStep_sound (acc : MState) (ch : Channel)
    (hs : safeStep acc ch = true) (hne : (getAllNames ch).isEmpty = false)
    (j : Nat) (hj : j < acc.chans.length)
    (hjt : (some j == findTarget acc.nameMap (getAllNames ch)) = false) :
    ∀ n ∈ getAllNames ch,
      n ∉ getAllNames acc.chans[j] ∧ strip n ∉ getAllNames acc.chans[j] := by
  simp only [safeStep, hne, Bool.false_eq_true, if_false, List.all_eq_true] at hs
  have h1 := hs j (List.mem_range.mpr hj)
  rw [Bool.or_eq_true] at h1
  rcases h1 with he | hall
  · rw [hjt] at he
    cases he
  · rw [List.all_eq_true] at hall
    rw [List.getD_eq_getElem _ _ hj] at hall
    intro n hn
    have h2 := hall n hn
    rw [Bool.and_eq_true] at h2
    obtain ⟨ha, hb⟩ := h2
    rw [Bool.not_eq_true'] at ha hb
    exact ⟨contains_false_not_mem ha, contains_false_not_mem hb⟩

theorem mem_names_extended (target : Channel) (fresh : List String) (n : String)
    (h : n ∈ getAllNames
        { target with displayNames := target.displayNames ++ fresh.map Option.some }) :
    n ∈ getAllNames target ∨ ∃ u ∈ fresh, u ≠ "" ∧ strip u = n := by
  rcases mem_namesOfTexts.mp h with ⟨t, ht, h0, hsn⟩
  rcases List.mem_append.mp ht with ht | ht
  · left
    exact mem_namesOfTexts.mpr ⟨t, ht, h0, hsn⟩
  · right
    obtain ⟨u, hu, he⟩ := List.mem_map.mp ht
    injection he with he
    subst he
    exact ⟨u, hu, h0, hsn⟩

theorem mergeChannel_disjoint (acc : MState) (ch : Channel)
    (hd : NamesDisjoint acc.chans) (hs : safeStep acc ch = true) :
    NamesDisjoint (mergeChannel acc ch).chans := by
  by_cases hne : (getAllNames ch).isEmpty = true
  · simpa [mergeChannel, hne] using hd
  · rw [Bool.not_eq_true] at hne
    rcases hft : findTarget acc.nameMap (getAllNames ch) with _ | t
    · -- no name matched: the incoming channel is appended as a new channel
      simp only [mergeChannel, hne, Bool.false_eq_true, if_false, hft]
      intro i j hi hj hij n hni hnj
      have hiT : i < acc.chans.length + 1 := by simpa using hi
      have hjT : j < acc.chans.length + 1 := by simpa using hj
      have hsafe : ∀ m (hm : m < acc.chans.length), ∀ u ∈ getAllNames ch,
          u ∉ getAllNames acc.chans[m] ∧ strip u ∉ getAllNames acc.chans[m] := by
        intro m hm
        exact safeStep_sound acc ch hs hne m hm (by rw [hft]; rfl)
      rcases Nat.lt_or_ge i acc.chans.length with hiL | hiL
      · rcases Nat.lt_or_ge j acc.chans.length with hjL | hjL
        · rw [List.getElem_append_left hiL] at hni
          rw [List.getElem_append_left hjL] at hnj
          exact hd i j hiL hjL hij n hni hnj
        · have hjE : j = acc.chans.length := by omega
          rw [List.getElem_concat_length _ _ _ hjE] at hnj
          have hn' : n ∈ getAllNames ch := hnj
          rw [List.getElem_append_left hiL] at hni
          exact (hsafe i hiL n hn').1 hni
      · have hiE : i = acc.chans.length := by omega
        rw [List.getElem_concat_length _ _ _ hiE] at hni
        have hn' : n ∈ getAllNames ch := hni
        rcases Nat.lt_or_ge j acc.chans.length with hjL | hjL
        · rw [List.getElem_append_left hjL] at hnj
          exact (hsafe j hjL n hn').1 hnj
        · exact hij (by omega)
    · -- a name matched: the incoming names are merged into channel `t`
      simp only [mergeChannel, hne, Bool.false_eq_true, if_false, hft]
      intro i j hi hj hij n hni hnj
      have hiL : i < acc.chans.length := by simpa using hi
      have hjL : j < acc.chans.length := by simpa using hj
      have hsafe : ∀ m (hm : m < acc.chans.length), m ≠ t → ∀ u ∈ getAllNames ch,
          u ∉ getAllNames acc.chans[m] ∧ strip u ∉ getAllNames acc.chans[m] := by
        intro m hm hmt
        exact safeStep_sound acc ch hs hne m hm
          (by rw [hft]; exact beq_eq_false_iff_ne.mpr (by simpa using hmt))
      by_cases hit : i = t
      · subst hit
        have hjne : j ≠ i := fun he => hij he.symm
        rw [List.getElem_set_self] at hni
        rw [List.getElem_set_ne (fun he => hjne he.symm)] at hnj
        rcases mem_names_extended _ _ _ hni with hn1 | ⟨u, hu, hu0, hun⟩
        · rw [List.getD_eq_getElem _ _ hiL] at hn1
          exact hd i j hiL hjL hij n hn1 hnj
        · have hu' : u ∈ getAllNames ch := (List.mem_filter.mp hu).1
          rw [← hun] at hnj
          exact (hsafe j hjL hjne u hu').2 hnj
      · by_cases hjt : j = t
        · subst hjt
          rw [List.getElem_set_ne (fun he => hit he.symm)] at hni
          rw [List.getElem_set_self] at hnj
          rcases mem_names_extended _ _ _ hnj with hn1 | ⟨u, hu, hu0, hun⟩
          · rw [List.getD_eq_getElem _ _ hjL] at hn1
            exact hd j i hjL hiL (fun he => hij he.symm) n hn1 hni
          · have hu' : u ∈ getAllNames ch := (List.mem_filter.mp hu).1
            rw [← hun] at hni
            exact (hsafe i hiL hit u hu').2 hni
        · rw [List.getElem_set_ne (fun he => hit he.symm)] at hni
          rw [List.getElem_set_ne (fun he => hjt he.symm)] at hnj
          exact hd i j hiL hjL hij n hni hnj

theorem safeChans_disjoint : ∀ (chs : List Channel) (acc : MState),
    NamesDisjoint acc.chans → safeChans acc chs = true →
    NamesDisjoint (chs.foldl mergeChannel acc).chans := by
  intro chs
  induction chs with
  | nil => intro acc h _; exact h
  | cons c cs ih =>
    intro acc h hs
    rw [show safeChans acc (c :: cs) = (safeStep acc c && safeChans (mergeChannel acc c) cs)
        from rfl,
      Bool.and_eq_true] at hs
    exact ih _ (mergeChannel_disjoint acc c h hs.1) hs.2

theorem safeDocs_disjoint : ∀ (inputs : List (Option Doc)) (acc : MState) (ws : List Warning),
    NamesDisjoint acc.chans → safeDocs acc inputs = true →
    NamesDisjoint (runRest acc ws inputs).1.chans := by
  intro inputs
  induction inputs with
  | nil => intro acc ws h _; exact h
  | cons hd tl ih =>
    intro acc ws h hs
    rcases hd with _ | d
    · exact ih _ _ h (by simpa [safeDocs] using hs)
    · rw [show safeDocs acc (some d :: tl) =
          (safeChans acc (chansOf d) && safeDocs (docStep acc d).1 tl) from rfl,
        Bool.and_eq_true] at hs
      have hd1 : NamesDisjoint ((chansOf d).foldl mergeChannel acc).chans :=
        safeChans_disjoint _ _ h hs.1
      have hd2 : NamesDisjoint (docStep acc d).1.chans := by
        unfold docStep progPhase
        obtain ⟨pm, hsh⟩ :=
          foldl_progStep_shape (progsOfDoc d) ((chansOf d).foldl mergeChannel acc, [])
        rw [hsh]
        exact hd1
      exact ih _ _ hd2 hs.2

/-- C5 counterexample: base channels X (id "1", name "A") and Y (id "2",
name "B"); the second input's channel carries names A and B.  It is
merged into X by first match, and B is copied onto X while Y still
carries B — the output has two distinct channel elements both carrying
display-name "B". -/
theorem c5_counterexample :
    mergeFiles
        [some ⟨[], [Item.chan ⟨some "1", [some "A"]⟩, Item.chan ⟨some "2", [some "B"]⟩]⟩,
         some ⟨[], [Item.chan ⟨some "3", [some "A", some "B"]⟩]⟩]
        "20240101000000" =
      RunOutcome.ok
        (some ⟨[("generator-info-name", "tvsilo.vip"),
                ("generator-info-url", "https://github.com/g12777/TV"),
                ("date", "20240101000000")],
               [Item.chan ⟨some "1", [some "A", some "B"]⟩,
                Item.chan ⟨some "2", [some "B"]⟩]⟩)
        [] ∧
    ((chansOf ⟨[("generator-info-name", "tvsilo.vip"),
          ("generator-info-url", "https://github.com/g12777/TV"),
          ("date", "20240101000000")],
        [Item.chan ⟨some "1", [some "A", some "B"]⟩,
         Item.chan ⟨some "2", [some "B"]⟩]⟩).filter
      (fun c => (getAllNames c).contains "B")).length = 2 :=
  ⟨rfl, rfl⟩

/-- C5 (amended): display-name uniqueness holds under the conditions the
first-match algorithm actually guarantees: if the base document's
channels carry pairwise disjoint name sets, and at every merge step of
the run the incoming channel shares no name with any accumulated channel
other than its chosen merge target (`safeDocs`), then no display-name
ends up on two distinct output channel elements.  Without the `safeDocs`
condition a channel matching one target by one name and another channel
by another name copies the second name onto the target, duplicating it. -/
theorem c5_name_uniqueness (base : Doc) (rest : List (Option Doc)) (dateStr : String)
    (out : Doc) (ws : List Warning)
    (h : mergeFiles (some base :: rest) dateStr = RunOutcome.ok (some out) ws)
    (hb : namesDisjointB (chansOf base) = true)
    (hsafe : safeDocs (baseState base dateStr) rest = true) :
    NamesDisjoint (chansOf out) := by
  obtain rfl := mergeFiles_ok_parts base rest dateStr out ws h
  have hd0 : NamesDisjoint (baseState base dateStr).chans := by
    rw [baseState_chans]
    exact namesDisjointB_sound _ hb
  have hres := safeDocs_disjoint rest (baseState base dateStr) [] hd0 hsafe
  rw [show chansOf (finalDoc (runRest (baseState base dateStr) [] rest).1) =
      (runRest (baseState base dateStr) [] rest).1.chans from chansOf_finalDoc _]
  exact hres

theorem c5_name_uniqueness_witness :
    NamesDisjoint
      (chansOf ⟨[("generator-info-name", "tvsilo.vip"),
          ("generator-info-url", "https://github.com/g12777/TV"),
          ("date", "20240101000000")],
        [Item.chan ⟨some "1", [some "A"]⟩,
         Item.chan ⟨some "2", [some "B"]⟩]⟩) :=
  c5_name_uniqueness
    ⟨[], [Item.chan ⟨some "1", [some "A"]⟩]⟩
    [some ⟨[], [Item.chan ⟨some "7", [some "B"]⟩]⟩]
    "20240101000000"
    ⟨[("generator-info-name", "tvsilo.vip"),
      ("generator-info-url", "https://github.com/g12777/TV"),
      ("date", "20240101000000")],
     [Item.chan ⟨some "1", [some "A"]⟩,
      Item.chan ⟨some "2", [some "B"]⟩]⟩
    [] rfl rfl rfl

/-- C8: scenario 1.  The base has one channel id `"1"` named `CNN`; the
second input has a channel id `"9"` also named `CNN` and a programme
referencing `"9"`.  The output has exactly one channel (id `"1"`, name
`CNN`) and the programme, rewritten to `channel="1"`, immediately after
it. -/
theorem c8_scenario1 :
    mergeFiles
        [some ⟨[], [Item.chan ⟨some "1", [some "CNN"]⟩]⟩,
         some ⟨[], [Item.chan ⟨some "9", [some "CNN"]⟩, Item.prog ⟨some "9", 7⟩]⟩]
        "20240101000000" =
      RunOutcome.ok
        (some ⟨[("generator-info-name", "tvsilo.vip"),
                ("generator-info-url", "https://github.com/g12777/TV"),
                ("date", "20240101000000")],
               [Item.chan ⟨some "1", [some "CNN"]⟩,
                Item.prog ⟨some "1", 7⟩]⟩)
        [] := by
  rfl

end MergeEpg
